import Mathlib

/-!
Verification of the Pelham interhouse swimming gala application
(`src/app.py`) against its natural-language specification.

The embedding below translates the computational core of `app.py` into
Lean definitions:

* the ranking/aggregation engine of the "Rankings" page
  (lines 281–368: groupby, the `calc_method` dispatch, rounding,
  sorting, and the "Top 3 Per House" selection);
* the "Gala Reports" event heat sheets (lines 417–458);
* the "Enter Times (Batch)" submit loop (lines 125–153);
* the "Edit/Fix Results" save loop (lines 208–221).

Times are modelled as exact rationals (`ℚ`); Python's `round(x, 2)` is
modelled as decimal round-half-to-even at two decimal places.  The
`date_swum` strings stored by the app have the fixed form `YYYY-MM-DD`,
on which lexicographic string order coincides with numeric order, so in
the ranking engine a date is modelled as a `Nat` (e.g. `20240301`).
Pandas `sort_values` is modelled by `List.insertionSort`; the tie order
of the source's default `kind='quicksort'` is discussed at the relevant
theorems.
-/

namespace Pelham

/-- Decimal round-half-to-even of a rational to an integer, the
idealisation of Python's `round` on a scaled value. -/
def roundHalfEven (x : ℚ) : ℤ :=
  if x - ⌊x⌋ < 1/2 then ⌊x⌋
  else if 1/2 < x - ⌊x⌋ then ⌊x⌋ + 1
  else if ⌊x⌋ % 2 = 0 then ⌊x⌋ else ⌊x⌋ + 1

/-- Python's `round(x, 2)`: round to two decimal places. -/
def round2 (x : ℚ) : ℚ := (roundHalfEven (100 * x) : ℚ) / 100

/-- One row of `df_merged` on the Rankings page (a Swimmer joined with
one of their Results), and likewise one row of `df_full` on the Gala
Reports page.  Only the fields the core logic reads are kept. -/
structure Entry where
  first_name : String
  surname : String
  house : String
  gender : String
  grade : Nat
  stroke : String
  time_seconds : ℚ
  date_swum : Nat
deriving DecidableEq, Repr

/-- `group['time_seconds'].min()`: the minimum time of a group
(`0` for the empty group, which the groupby never produces). -/
def minTime : List Entry → ℚ
  | [] => 0
  | h :: t => t.foldr (fun r m => min r.time_seconds m) h.time_seconds

/-- Descending date order on joined rows. -/
def dateGe (a b : Entry) : Prop := b.date_swum ≤ a.date_swum

instance : DecidableRel dateGe := fun a b => Nat.decLe b.date_swum a.date_swum

instance : IsTotal Entry dateGe := ⟨fun a b => Nat.le_total b.date_swum a.date_swum⟩

instance : IsTrans Entry dateGe := ⟨fun _ _ _ hab hbc => Nat.le_trans hbc hab⟩

/-- `group.sort_values(by='date_swum', ascending=False)`. -/
def sortDescByDate (g : List Entry) : List Entry :=
  g.insertionSort dateGe

/-- `series.mean()`: arithmetic mean of the `time_seconds` of a list of
rows (`0/0 = 0` for the empty list, which the caller never passes). -/
def meanTime (g : List Entry) : ℚ :=
  (g.map (·.time_seconds)).sum / g.length

/-- The per-group body of the Rankings loop (lines 321–344 of
`src/app.py`): dispatch on `calc_method`, producing the rounded
`Rank Time` and the `Note` string.  The dispatch is an
`if`/`elif`/`else`: every method other than `"Best Time"` and
`"Last Swim"` falls into the Average-of-last-N branch. -/
def rankGroup (calc_method : String) (n_val : Nat) (g : List Entry) :
    ℚ × String :=
  if calc_method = "Best Time" then
    (round2 (minTime g), "Best of " ++ toString g.length)
  else if calc_method = "Last Swim" then
    match sortDescByDate g with
    | [] => (round2 0, "")
    | h :: _ => (round2 h.time_seconds, "Date: " ++ toString h.date_swum)
  else
    let top_n := (sortDescByDate g).take n_val
    (round2 (meanTime top_n), "Avg of " ++ toString top_n.length)

/-- One row of `df_rank`: a RankedSwimmer. -/
structure RankedSwimmer where
  first_name : String
  surname : String
  house : String
  rankTime : ℚ
  note : String
deriving DecidableEq, Repr

/-- Build the `ranked_data` row for one group (the group key of the
pandas groupby is the common `(first_name, surname, house)` of the
group's rows, read here from the head row). -/
def mkRanked (calc_method : String) (n_val : Nat) (g : List Entry) :
    RankedSwimmer :=
  match g with
  | [] => { first_name := "", surname := "", house := ""
            rankTime := (rankGroup calc_method n_val []).1
            note := (rankGroup calc_method n_val []).2 }
  | h :: t =>
      { first_name := h.first_name, surname := h.surname, house := h.house
        rankTime := (rankGroup calc_method n_val (h :: t)).1
        note := (rankGroup calc_method n_val (h :: t)).2 }

/-- `ranked_data`: the loop over the groups of
`df_merged.groupby(['first_name', 'surname', 'house'])`.  The grouping
itself is plumbing; the engine is modelled on the resulting list of
groups. -/
def rankedData (calc_method : String) (n_val : Nat)
    (groups : List (List Entry)) : List RankedSwimmer :=
  groups.map (mkRanked calc_method n_val)

/-- Ascending rank-time order on ranked rows. -/
def rankLE (a b : RankedSwimmer) : Prop := a.rankTime ≤ b.rankTime

instance : DecidableRel rankLE := fun a b =>
  inferInstanceAs (Decidable (a.rankTime ≤ b.rankTime))

instance : IsTotal RankedSwimmer rankLE := ⟨fun a b => le_total a.rankTime b.rankTime⟩

instance : IsTrans RankedSwimmer rankLE := ⟨fun _ _ _ hab hbc => le_trans hab hbc⟩

/-- `pd.DataFrame(ranked_data).sort_values("Rank Time")`, modelled with
a stable sort; the source's `sort_values` default `kind='quicksort'`
fixes no tie order (see the discussion of stability at the claims). -/
def sortRanked (l : List RankedSwimmer) : List RankedSwimmer :=
  l.insertionSort rankLE

/-- `df_rank.reset_index(drop=True); df_rank.index += 1`: attach the
1-based rank positions after sorting. -/
def withPositions (l : List RankedSwimmer) : List (Nat × RankedSwimmer) :=
  l.enum.map (fun p => (p.1 + 1, p.2))

/-- The full Rankings pipeline from the list of groups to `df_rank`. -/
def computeRankings (calc_method : String) (n_val : Nat)
    (groups : List (List Entry)) : List (Nat × RankedSwimmer) :=
  withPositions (sortRanked (rankedData calc_method n_val groups))

/-- The four fixed houses (line 353 / line 384 of `src/app.py`). -/
def houses : List String := ["Bromhead", "Christie", "Clark", "Melville"]

/-- `df_rank[df_rank['House'] == h].head(3)`: one house's team on the
Rankings page. -/
def selectTopN (ranked : List RankedSwimmer) (h : String) :
    List RankedSwimmer :=
  (ranked.filter (fun r => r.house = h)).take 3

/-! ### Gala Reports: event heat sheets (lines 417–458 of `src/app.py`)

The heat sheets are built from `df_full = pd.merge(df_swimmers,
df_results, on="swimmer_id")` — the raw swimmer/result join, one row
per Result — not from the `df_rank` pool of the Rankings page. -/

/-- `race_data`: `df_full` filtered to one `(grade, gender, stroke)`
event (lines 429–433). -/
def raceData (grade : Nat) (gender stroke : String) (df : List Entry) :
    List Entry :=
  df.filter (fun r => r.grade = grade ∧ r.gender = gender ∧ r.stroke = stroke)

/-- Ascending time order on joined rows. -/
def timeLE (a b : Entry) : Prop := a.time_seconds ≤ b.time_seconds

instance : DecidableRel timeLE := fun a b =>
  inferInstanceAs (Decidable (a.time_seconds ≤ b.time_seconds))

instance : IsTotal Entry timeLE := ⟨fun a b => le_total a.time_seconds b.time_seconds⟩

instance : IsTrans Entry timeLE := ⟨fun _ _ _ hab hbc => le_trans hab hbc⟩

/-- `race_data.sort_values("time_seconds")`, ascending. -/
def sortByTime (l : List Entry) : List Entry :=
  l.insertionSort timeLE

/-- `h_data`: one house's three fastest rows of the event
(line 438). -/
def houseTop3 (h : String) (race : List Entry) : List Entry :=
  (sortByTime (race.filter (fun r => r.house = h))).take 3

/-- `heat_df = pd.concat(finalists).sort_values("time_seconds")`
(lines 436–442): concatenate the four per-house selections and re-sort
globally by time ascending. -/
def heatSheet (race : List Entry) : List Entry :=
  sortByTime ((houses.map (fun h => houseTop3 h race)).flatten)

/-! ### Batch time entry (lines 125–153 of `src/app.py`) -/

/-- The raw `row['Time (Seconds)']` cell handed to the submit loop:
a numeric value (`num`, which also covers numeric strings that
`float()` accepts), a list-wrapped cell (`seq`), or any value on which
`float()` raises (`bad`: a missing/`None` cell, non-numeric text, …). -/
inductive RawTime where
  | num (q : ℚ)
  | seq (l : List RawTime)
  | bad

/-- Lines 132–136: `if isinstance(raw_time, list): time_val =
float(raw_time[0]) else: time_val = float(raw_time)`, with
`except: time_val = 0.0` turning every failure (empty list,
uncoercible element, uncoercible scalar) into `0.0`. -/
def coerceTime : RawTime → ℚ
  | .num q => q
  | .bad => 0
  | .seq [] => 0
  | .seq (x :: _) =>
      match x with
      | .num q => q
      | _ => 0

/-- Line 138: `if time_val > 0 and not row['DNS']`. -/
def keepRow (raw : RawTime) (dns : Bool) : Bool :=
  decide (0 < coerceTime raw) && !dns

/-- The submit loop: each kept row becomes a persisted
`time_seconds` and bumps `count`; the pair returned is (persisted
times, `count`), and `count` is the only feedback shown. -/
def submitResults (rows : List (RawTime × Bool)) : List ℚ × Nat :=
  let saved := (rows.filter (fun p => keepRow p.1 p.2)).map
    (fun p => coerceTime p.1)
  (saved, saved.length)

/-! ### Edit/Fix Results: save loop (lines 208–221 of `src/app.py`) -/

/-- A stored `results` document, with every field the batch-entry page
writes (lines 139–148). -/
structure ResultDoc where
  swimmer_id : String
  stroke : String
  time_seconds : ℚ
  date_swum : String
  season : Nat
  source : String
  logged_by : String
  timestamp : Nat
deriving DecidableEq, Repr

/-- The `results` collection: documents keyed by their Firestore id. -/
abbrev Store := List (String × ResultDoc)

/-- A calendar date as the data editor's `DateColumn` holds it. -/
structure CalDate where
  year : Nat
  month : Nat
  day : Nat
deriving DecidableEq, Repr

/-- Zero-pad a numeral to two digits. -/
def pad2 (k : Nat) : String :=
  if k < 10 then "0" ++ toString k else toString k

/-- Zero-pad a numeral to four digits. -/
def pad4 (k : Nat) : String :=
  if k < 10 then "000" ++ toString k
  else if k < 100 then "00" ++ toString k
  else if k < 1000 then "0" ++ toString k
  else toString k

/-- `str(row['date_swum'])` on a `datetime.date`: the ISO
`YYYY-MM-DD` form (line 216). -/
def dateToStr (d : CalDate) : String :=
  pad4 d.year ++ "-" ++ pad2 d.month ++ "-" ++ pad2 d.day

/-- One row of `edited_history` as the save loop reads it: the
disabled-hence-unchanged `doc_id` plus the three editable columns. -/
structure EditedRow where
  doc_id : String
  time_seconds : ℚ
  date_swum : CalDate
  stroke : String
deriving DecidableEq, Repr

/-- `doc_ref.update({...})` for one row (lines 212–218): overwrite
exactly `time_seconds`, `date_swum` (re-serialized) and `stroke` of the
document with that id; all other fields and documents are untouched. -/
def updateDoc (row : EditedRow) (p : String × ResultDoc) :
    String × ResultDoc :=
  if p.1 = row.doc_id then
    (p.1, { p.2 with
              time_seconds := row.time_seconds
              date_swum := dateToStr row.date_swum
              stroke := row.stroke })
  else p

/-- The "Save Changes to History" loop (lines 208–221): update each
edited row's document in turn, counting updates.  No delete call is
ever issued, and the returned count is the update count only. -/
def saveChangesToHistory (store : Store) (rows : List EditedRow) :
    Store × Nat :=
  rows.foldl (fun acc row => ((acc.1 : Store).map (updateDoc row), acc.2 + 1))
    (store, 0)

/-! ### Concrete inputs used by witnesses and counterexamples -/

/-- The spec §8 scenario: Alice, Bromhead, three Freestyle results. -/
def e1 : Entry :=
  ⟨"Alice", "Jones", "Bromhead", "F", 4, "Freestyle", 50, 20240101⟩

def e2 : Entry :=
  ⟨"Alice", "Jones", "Bromhead", "F", 4, "Freestyle", 48, 20240201⟩

def e3 : Entry :=
  ⟨"Alice", "Jones", "Bromhead", "F", 4, "Freestyle", 52, 20240301⟩

def exGroup : List Entry := [e1, e2, e3]

/-- An event pool: four Bromhead boys faster than the lone Christie
boy. -/
def hA1 : Entry := ⟨"Ben", "Avery", "Bromhead", "M", 4, "Freestyle", 10, 20240110⟩

def hA2 : Entry := ⟨"Dan", "Brook", "Bromhead", "M", 4, "Freestyle", 11, 20240110⟩

def hA3 : Entry := ⟨"Ed", "Clay", "Bromhead", "M", 4, "Freestyle", 12, 20240110⟩

def hA4 : Entry := ⟨"Finn", "Dart", "Bromhead", "M", 4, "Freestyle", 13, 20240110⟩

def hB1 : Entry := ⟨"Gus", "Ellis", "Christie", "M", 4, "Freestyle", 20, 20240110⟩

def exPool : List Entry := [hA1, hA2, hA3, hA4, hB1]

/-- One swimmer with two Results in the same event. -/
def dup1 : Entry := ⟨"Hana", "Reed", "Bromhead", "F", 5, "Backstroke", 30, 20240101⟩

def dup2 : Entry := ⟨"Hana", "Reed", "Bromhead", "F", 5, "Backstroke", 31, 20240201⟩

def exDupPool : List Entry := [dup1, dup2]

/-- A ranked list for the team-selection witness. -/
def rs1 : RankedSwimmer := ⟨"Ben", "Avery", "Bromhead", 10, "Best of 1"⟩

def rs2 : RankedSwimmer := ⟨"Gus", "Ellis", "Christie", 20, "Best of 1"⟩

def exRanked : List RankedSwimmer := [rs1, rs2]

/-- A two-document result history for one swimmer. -/
def exDoc1 : ResultDoc :=
  ⟨"sw1", "Freestyle", 31, "2024-01-01", 2024, "Trials", "Staff Member", 1⟩

def exDoc2 : ResultDoc :=
  ⟨"sw1", "Freestyle", 33, "2024-02-01", 2024, "Trials", "Staff Member", 2⟩

def exStore : Store := [("r1", exDoc1), ("r2", exDoc2)]

/-- An edited row that sets the time of `r1` to `0`. -/
def exRowZero : EditedRow := ⟨"r1", 0, ⟨2024, 3, 5⟩, "Freestyle"⟩

/-- An edited snapshot that keeps only `r1` (the `r2` row was removed
in the editor). -/
def exRowKeep : EditedRow := ⟨"r1", 32, ⟨2024, 1, 2⟩, "Backstroke"⟩

/-! ## Helper lemmas -/

theorem roundHalfEven_mono {x y : ℚ} (h : x ≤ y) :
    roundHalfEven x ≤ roundHalfEven y := by
  have hf : ⌊x⌋ ≤ ⌊y⌋ := Int.floor_mono h
  unfold roundHalfEven
  rcases eq_or_lt_of_le hf with heq | hlt
  · have hq : ((⌊x⌋ : ℚ)) = (⌊y⌋ : ℚ) := by exact_mod_cast heq
    have hr : x - (⌊x⌋ : ℚ) ≤ y - (⌊y⌋ : ℚ) := by linarith
    split_ifs <;> first | omega | linarith
  · split_ifs <;> omega

theorem round2_mono {x y : ℚ} (h : x ≤ y) : round2 x ≤ round2 y := by
  unfold round2
  have h1 : roundHalfEven (100 * x) ≤ roundHalfEven (100 * y) :=
    roundHalfEven_mono (by linarith)
  have h2 : ((roundHalfEven (100 * x) : ℚ)) ≤ (roundHalfEven (100 * y) : ℚ) := by
    exact_mod_cast h1
  linarith

theorem foldr_minT_le_init (l : List Entry) (a : ℚ) :
    l.foldr (fun r m => min r.time_seconds m) a ≤ a := by
  induction l with
  | nil => simp
  | cons h t ih =>
      simpa using le_trans (min_le_right h.time_seconds _) ih

theorem foldr_minT_le_mem {l : List Entry} {r : Entry} (hr : r ∈ l) (a : ℚ) :
    l.foldr (fun r m => min r.time_seconds m) a ≤ r.time_seconds := by
  induction l with
  | nil => cases hr
  | cons h t ih =>
      rcases List.mem_cons.mp hr with he | ht
      · subst he; exact min_le_left _ _
      · simpa using le_trans (min_le_right h.time_seconds _) (ih ht)

theorem foldr_minT_mem (l : List Entry) (a : ℚ) :
    l.foldr (fun r m => min r.time_seconds m) a = a ∨
      l.foldr (fun r m => min r.time_seconds m) a ∈ l.map (·.time_seconds) := by
  induction l with
  | nil => left; rfl
  | cons h t ih =>
      by_cases hc : h.time_seconds ≤ t.foldr (fun r m => min r.time_seconds m) a
      · right
        simp only [List.foldr_cons, List.map_cons, List.mem_cons]
        left
        exact min_eq_left hc
      · rcases ih with h1 | h2
        · left
          simp only [List.foldr_cons, min_eq_right (le_of_not_le hc)]
          exact h1
        · right
          simp only [List.foldr_cons, List.map_cons, List.mem_cons,
            min_eq_right (le_of_not_le hc)]
          right
          exact h2

theorem minTime_le {g : List Entry} {r : Entry} (hr : r ∈ g) :
    minTime g ≤ r.time_seconds := by
  cases g with
  | nil => cases hr
  | cons h t =>
      rcases List.mem_cons.mp hr with he | ht
      · subst he; exact foldr_minT_le_init t _
      · exact foldr_minT_le_mem ht _

theorem minTime_mem {g : List Entry} (hg : g ≠ []) :
    minTime g ∈ g.map (·.time_seconds) := by
  cases g with
  | nil => exact absurd rfl hg
  | cons h t =>
      rcases foldr_minT_mem t h.time_seconds with h1 | h2
      · simp [minTime, h1]
      · simp only [minTime, List.map_cons, List.mem_cons]
        right
        exact h2

theorem le_meanTime {g : List Entry} {m : ℚ} (hg : g ≠ [])
    (h : ∀ r ∈ g, m ≤ r.time_seconds) : m ≤ meanTime g := by
  unfold meanTime
  have hlen : 0 < (g.length : ℚ) := by
    have : 0 < g.length := List.length_pos.mpr hg
    exact_mod_cast this
  rw [le_div_iff₀ hlen]
  have hmap : ∀ x ∈ g.map (·.time_seconds), m ≤ x := by
    intro x hx
    rcases List.mem_map.mp hx with ⟨r, hr, rfl⟩
    exact h r hr
  have hs := List.card_nsmul_le_sum (g.map (·.time_seconds)) m hmap
  rw [List.length_map, nsmul_eq_mul] at hs
  calc m * (g.length : ℚ) = (g.length : ℚ) * m := by ring
    _ ≤ (g.map (·.time_seconds)).sum := hs

theorem meanTime_perm {l1 l2 : List Entry} (h : l1.Perm l2) :
    meanTime l1 = meanTime l2 := by
  unfold meanTime
  rw [(h.map (·.time_seconds)).sum_eq, h.length_eq]

theorem sortDescByDate_perm (g : List Entry) : (sortDescByDate g).Perm g :=
  List.perm_insertionSort dateGe g

theorem sortDescByDate_sorted (g : List Entry) :
    List.Sorted dateGe (sortDescByDate g) :=
  List.sorted_insertionSort dateGe g

theorem rankGroup_best (n : Nat) (g : List Entry) :
    rankGroup "Best Time" n g =
      (round2 (minTime g), "Best of " ++ toString g.length) := by
  simp [rankGroup]

theorem rankGroup_avg_of_ne {m : String} (hm1 : m ≠ "Best Time")
    (hm2 : m ≠ "Last Swim") (n : Nat) (g : List Entry) :
    rankGroup m n g =
      (round2 (meanTime ((sortDescByDate g).take n)),
        "Avg of " ++ toString ((sortDescByDate g).take n).length) := by
  simp [rankGroup, hm1, hm2]

theorem keepRow_iff (raw : RawTime) (dns : Bool) :
    keepRow raw dns = true ↔ (0 < coerceTime raw ∧ dns = false) := by
  simp [keepRow, Bool.and_eq_true, Bool.not_eq_true']

theorem submitResults_pos (rows : List (RawTime × Bool)) (q : ℚ)
    (hq : q ∈ (submitResults rows).1) : 0 < q := by
  simp only [submitResults] at hq
  rcases List.mem_map.mp hq with ⟨p, hp, rfl⟩
  exact ((keepRow_iff p.1 p.2).mp (List.mem_filter.mp hp).2).1

/-! ## Claims -/

/-- C1: for every non-empty group, the Best Time policy returns the
rounded minimum of the group's `time_seconds` (`minTime g` is a member
of the group's times and a lower bound of them) with note
`"Best of {group size}"`, and this rank time is ≤ the rank times of the
Last Swim and Average-of-Last-N policies on the same group. -/
theorem C1_best_time_is_min_and_le (g : List Entry) (hg : g ≠ [])
    (n : Nat) (hn : 2 ≤ n) :
    (rankGroup "Best Time" n g).1 = round2 (minTime g) ∧
    (rankGroup "Best Time" n g).2 = "Best of " ++ toString g.length ∧
    minTime g ∈ g.map (·.time_seconds) ∧
    (∀ t ∈ g.map (·.time_seconds), minTime g ≤ t) ∧
    (rankGroup "Best Time" n g).1 ≤ (rankGroup "Last Swim" n g).1 ∧
    (rankGroup "Best Time" n g).1 ≤ (rankGroup "Average of Last N" n g).1 := by
  have hle : ∀ t ∈ g.map (·.time_seconds), minTime g ≤ t := by
    intro t ht
    rcases List.mem_map.mp ht with ⟨r, hr, rfl⟩
    exact minTime_le hr
  refine ⟨by rw [rankGroup_best], by rw [rankGroup_best], minTime_mem hg, hle, ?_, ?_⟩
  · obtain ⟨h0, t0, hs⟩ : ∃ h0 t0, sortDescByDate g = h0 :: t0 := by
      cases hsd : sortDescByDate g with
      | nil =>
          exfalso
          have hlen := (sortDescByDate_perm g).length_eq
          rw [hsd] at hlen
          cases g with
          | nil => exact hg rfl
          | cons a l => simp at hlen
      | cons a l => exact ⟨a, l, rfl⟩
    have hh0 : h0 ∈ g := (sortDescByDate_perm g).mem_iff.mp
      (by rw [hs]; exact List.mem_cons_self _ _)
    have hmin : minTime g ≤ h0.time_seconds := minTime_le hh0
    have hlast : (rankGroup "Last Swim" n g).1 = round2 h0.time_seconds := by
      simp [rankGroup, hs]
    rw [rankGroup_best, hlast]
    exact round2_mono hmin
  · have havg := rankGroup_avg_of_ne (m := "Average of Last N")
      (by decide) (by decide) n g
    rw [rankGroup_best, havg]
    have hlen : (sortDescByDate g).length = g.length :=
      (sortDescByDate_perm g).length_eq
    have hgpos : 0 < g.length := List.length_pos.mpr hg
    have htake_ne : (sortDescByDate g).take n ≠ [] := by
      intro hnil
      have hl := congrArg List.length hnil
      simp only [List.length_take, hlen, List.length_nil] at hl
      omega
    have hall : ∀ r ∈ (sortDescByDate g).take n, minTime g ≤ r.time_seconds := by
      intro r hr
      exact minTime_le ((sortDescByDate_perm g).mem_iff.mp (List.mem_of_mem_take hr))
    exact round2_mono (le_meanTime htake_ne hall)

/-- Witness for C1 at the spec §8 scenario group with `n = 2`. -/
theorem C1_best_time_is_min_and_le_witness :
    exGroup ≠ [] ∧ 2 ≤ 2 ∧
    ((rankGroup "Best Time" 2 exGroup).1 = round2 (minTime exGroup) ∧
     (rankGroup "Best Time" 2 exGroup).2 = "Best of " ++ toString exGroup.length ∧
     minTime exGroup ∈ exGroup.map (·.time_seconds) ∧
     (∀ t ∈ exGroup.map (·.time_seconds), minTime exGroup ≤ t) ∧
     (rankGroup "Best Time" 2 exGroup).1 ≤ (rankGroup "Last Swim" 2 exGroup).1 ∧
     (rankGroup "Best Time" 2 exGroup).1 ≤
       (rankGroup "Average of Last N" 2 exGroup).1) :=
  ⟨by decide, by decide,
    C1_best_time_is_min_and_le exGroup (by decide) 2 (by decide)⟩

/-- C2: for every non-empty group and `n ∈ [2,5]`, the Average-of-Last-N
policy returns the rounded mean of the first `n` entries of the group
sorted by `date_swum` descending (the sorted list is date-descending and
a permutation of the group), with note `"Avg of {count actually used}"`
where the count is `min n (group size)`; when `n ≥` the group size the
rank time is the rounded mean of the entire group. -/
theorem C2_avg_last_n_spec (g : List Entry) (hg : g ≠ [])
    (n : Nat) (hn2 : 2 ≤ n) (hn5 : n ≤ 5) :
    (rankGroup "Average of Last N" n g).1 =
      round2 (meanTime ((sortDescByDate g).take n)) ∧
    (rankGroup "Average of Last N" n g).2 =
      "Avg of " ++ toString (min n g.length) ∧
    List.Sorted dateGe (sortDescByDate g) ∧
    (sortDescByDate g).Perm g ∧
    (g.length ≤ n →
      (rankGroup "Average of Last N" n g).1 = round2 (meanTime g)) := by
  have havg := rankGroup_avg_of_ne (m := "Average of Last N")
    (by decide) (by decide) n g
  have hlen : (sortDescByDate g).length = g.length :=
    (sortDescByDate_perm g).length_eq
  refine ⟨by rw [havg], ?_, sortDescByDate_sorted g, sortDescByDate_perm g, ?_⟩
  · rw [havg]
    simp [List.length_take, hlen]
  · intro hng
    rw [havg]
    have htake : (sortDescByDate g).take n = sortDescByDate g :=
      List.take_of_length_le (by rw [hlen]; exact hng)
    rw [htake, meanTime_perm (sortDescByDate_perm g)]

/-- Witness for C2 at the spec §8 scenario group with `n = 5 ≥ 3`. -/
theorem C2_avg_last_n_spec_witness :
    exGroup ≠ [] ∧ 2 ≤ 5 ∧ 5 ≤ 5 ∧
    ((rankGroup "Average of Last N" 5 exGroup).1 =
       round2 (meanTime ((sortDescByDate exGroup).take 5)) ∧
     (rankGroup "Average of Last N" 5 exGroup).2 =
       "Avg of " ++ toString (min 5 exGroup.length) ∧
     List.Sorted dateGe (sortDescByDate exGroup) ∧
     (sortDescByDate exGroup).Perm exGroup ∧
     (exGroup.length ≤ 5 →
       (rankGroup "Average of Last N" 5 exGroup).1 =
         round2 (meanTime exGroup))) :=
  ⟨by decide, by decide, by decide,
    C2_avg_last_n_spec exGroup (by decide) 5 (by decide) (by decide)⟩

/-- C4: for every ranked input sequence and each of the four fixed
houses, `selectTopN` returns exactly `min(qualifiers, 3)` entries, never
more than 3, as a sublist of the input (the global rank-time ordering is
preserved), and a house with no entries yields `[]` (the function is
total: no error is possible). -/
theorem C4_select_top_n_spec (ranked : List RankedSwimmer) (h : String)
    (hh : h ∈ houses) :
    (selectTopN ranked h).length =
      min (ranked.filter (fun r => r.house = h)).length 3 ∧
    (selectTopN ranked h).length ≤ 3 ∧
    (selectTopN ranked h).Sublist ranked ∧
    ((∀ r ∈ ranked, r.house ≠ h) → selectTopN ranked h = []) := by
  refine ⟨?_, ?_, ?_, ?_⟩
  · simp [selectTopN, List.length_take, Nat.min_comm]
  · simp only [selectTopN, List.length_take]
    omega
  · exact (List.take_sublist _ _).trans (List.filter_sublist _)
  · intro hnone
    have hfil : ranked.filter (fun r => decide (r.house = h)) = [] := by
      rw [List.filter_eq_nil_iff]
      intro r hr
      simpa using hnone r hr
    simp [selectTopN, hfil]

/-- Witness for C4: the Christie house has one qualifier in `exRanked`,
so it gets `min 1 3 = 1` entry. -/
theorem C4_select_top_n_spec_witness :
    "Christie" ∈ houses ∧
    ((selectTopN exRanked "Christie").length =
       min (exRanked.filter (fun r => r.house = "Christie")).length 3 ∧
     (selectTopN exRanked "Christie").length ≤ 3 ∧
     (selectTopN exRanked "Christie").Sublist exRanked ∧
     ((∀ r ∈ exRanked, r.house ≠ "Christie") →
       selectTopN exRanked "Christie" = [])) :=
  ⟨by decide, C4_select_top_n_spec exRanked "Christie" (by decide)⟩

/-- C5 counterexample: the heat sheets of the Gala Reports page are
built from `df_full`, the raw swimmer/result join with one row per
Result, not from the ranked pool (one `RankedSwimmer` per swimmer per
event).  With two Results for the same swimmer in one event, the heat
sheet lists that swimmer twice with the two raw times — impossible for
a sheet built by filtering the ranked pool. -/
theorem C5_heat_sheet_cx :
    heatSheet (raceData 5 "F" "Backstroke" exDupPool) = [dup1, dup2] ∧
    ¬ ((heatSheet (raceData 5 "F" "Backstroke" exDupPool)).map
        (fun r => (r.first_name, r.surname))).Nodup := by
  constructor
  · decide
  · decide

/-- C5 amended: for every event, the heat sheet is a time-sorted
permutation of the concatenation of the four per-house top-3 selections
taken from the raw event rows; every selected row belongs to its house
and carries the event's (grade, gender, stroke); and the per-house cap
means a slower house's swimmer can appear while a faster fourth-place
swimmer of another house is excluded (shown on `exPool`, where Christie's
20 s row is listed and Bromhead's 13 s fourth row is not). -/
theorem C5_heat_sheet_amended (df : List Entry) (grade : Nat)
    (gender stroke : String) :
    (heatSheet (raceData grade gender stroke df)).Perm
      ((houses.map (fun h => houseTop3 h (raceData grade gender stroke df))).flatten) ∧
    List.Sorted timeLE (heatSheet (raceData grade gender stroke df)) ∧
    (∀ h : String, ∀ r ∈ houseTop3 h (raceData grade gender stroke df),
        r.house = h ∧ r ∈ df ∧ r.grade = grade ∧ r.gender = gender ∧
          r.stroke = stroke) ∧
    (hB1 ∈ heatSheet (raceData 4 "M" "Freestyle" exPool) ∧
     hA4 ∉ heatSheet (raceData 4 "M" "Freestyle" exPool) ∧
     hA4.time_seconds < hB1.time_seconds) := by
  refine ⟨List.perm_insertionSort timeLE _, List.sorted_insertionSort timeLE _,
    ?_, by decide, by decide, by decide⟩
  intro h r hr
  have hr1 : r ∈ sortByTime ((raceData grade gender stroke df).filter
      (fun x => x.house = h)) := List.mem_of_mem_take hr
  have hr2 : r ∈ (raceData grade gender stroke df).filter
      (fun x => x.house = h) := by
    have := List.perm_insertionSort timeLE
      ((raceData grade gender stroke df).filter (fun x => x.house = h))
    exact this.mem_iff.mp hr1
  have hr3 := List.mem_filter.mp hr2
  have hhouse : r.house = h := by simpa using hr3.2
  have hr4 := List.mem_filter.mp hr3.1
  refine ⟨hhouse, hr4.1, ?_⟩
  simpa using hr4.2

/-- C6: the batch-entry submit loop persists a row iff the coerced time
is strictly positive and the DNS flag is false; a list-wrapped value is
coerced to its first element; every coercion failure (a `float()`-
rejected scalar, an empty list, an uncoercible first element) yields
`0.0` and hence a silent skip; the loop returns only the aggregate count
of persisted rows, and every persisted time is positive. -/
theorem C6_batch_validator_spec :
    (∀ raw dns, keepRow raw dns = true ↔ (0 < coerceTime raw ∧ dns = false)) ∧
    (∀ (q : ℚ) (t : List RawTime),
       coerceTime (RawTime.seq (RawTime.num q :: t)) = q) ∧
    coerceTime RawTime.bad = 0 ∧
    coerceTime (RawTime.seq []) = 0 ∧
    (∀ t : List RawTime, coerceTime (RawTime.seq (RawTime.bad :: t)) = 0) ∧
    (∀ (l t : List RawTime),
       coerceTime (RawTime.seq (RawTime.seq l :: t)) = 0) ∧
    (∀ rows : List (RawTime × Bool),
       (submitResults rows).2 =
         (rows.filter (fun p => keepRow p.1 p.2)).length) ∧
    (∀ (rows : List (RawTime × Bool)) (q : ℚ),
       q ∈ (submitResults rows).1 → 0 < q) := by
  refine ⟨keepRow_iff, fun q t => rfl, rfl, rfl, fun t => rfl,
    fun l t => rfl, ?_, submitResults_pos⟩
  intro rows
  simp [submitResults]

/-- C7 counterexample: saving an edited history row whose time is `0`
persists a Result with non-positive `time_seconds` — the
"Save Changes to History" loop applies `doc_ref.update` unconditionally,
so the claimed invariant does not hold on every write path. -/
theorem C7_nonpositive_persisted_cx :
    (saveChangesToHistory [("r1", exDoc1)] [exRowZero]).1 =
      [("r1", { exDoc1 with
                  time_seconds := 0
                  date_swum := "2024-03-05"
                  stroke := "Freestyle" })] ∧
    ((saveChangesToHistory [("r1", exDoc1)] [exRowZero]).1.map
      (fun p => p.2.time_seconds)) = [0] := by
  constructor
  · decide
  · decide

/-- C7 amended: the batch-entry path never persists a non-positive time
(every saved time is positive, and a DNS row is never kept), but the
history-editor path writes the edited row's `time_seconds` verbatim,
with no positivity or DNS guard. -/
theorem C7_amended_write_guards :
    (∀ (rows : List (RawTime × Bool)) (q : ℚ),
       q ∈ (submitResults rows).1 → 0 < q) ∧
    (∀ (rows : List (RawTime × Bool)) (p : RawTime × Bool),
       p ∈ rows → p.2 = true → keepRow p.1 p.2 = false) ∧
    (∀ (id : String) (d : ResultDoc) (row : EditedRow), row.doc_id = id →
       (saveChangesToHistory [(id, d)] [row]).1 =
         [(id, { d with
                   time_seconds := row.time_seconds
                   date_swum := dateToStr row.date_swum
                   stroke := row.stroke })]) := by
  refine ⟨submitResults_pos, ?_, ?_⟩
  · intro rows p _ hdns
    simp [keepRow, hdns]
  · intro id d row hid
    simp [saveChangesToHistory, updateDoc, hid]

/-- Witness for C7 amended: a DNS row is rejected by the batch path,
and the edit path persists `exRowZero`'s zero time verbatim. -/
theorem C7_amended_write_guards_witness :
    (RawTime.num 30, true) ∈ [(RawTime.num 30, true)] ∧
    keepRow (RawTime.num 30) true = false ∧
    exRowZero.doc_id = "r1" ∧
    (saveChangesToHistory [("r1", exDoc1)] [exRowZero]).1 =
      [("r1", { exDoc1 with
                  time_seconds := exRowZero.time_seconds
                  date_swum := dateToStr exRowZero.date_swum
                  stroke := exRowZero.stroke })] :=
  ⟨List.mem_cons_self _ _,
    C7_amended_write_guards.2.1 [(RawTime.num 30, true)] (RawTime.num 30, true)
      (List.mem_cons_self _ _) rfl,
    rfl,
    C7_amended_write_guards.2.2 "r1" exDoc1 exRowZero rfl⟩

/-- C8: evaluation at the failing input.  `exStore` holds two Results
`r1` and `r2`; the edited snapshot keeps only `r1` (the `r2` row was
deleted in the editor).  After "Save Changes to History", `r2` is still
present, unchanged — the loop never issues a delete — and the only count
returned is the update count `1`; no deleted-row count exists. -/
theorem C8_no_delete_on_row_removal :
    (saveChangesToHistory exStore [exRowKeep]).1.map Prod.fst = ["r1", "r2"] ∧
    ("r2", exDoc2) ∈ (saveChangesToHistory exStore [exRowKeep]).1 ∧
    (saveChangesToHistory exStore [exRowKeep]).2 = 1 := by
  refine ⟨by decide, by decide, by decide⟩

/-- C9 counterexample: a policy value outside the three recognized
enums is not a fail-fast error — the `if`/`elif`/`else` dispatch routes
it to the Average-of-Last-N branch, which returns a normal ranking. -/
theorem C9_unknown_policy_cx :
    rankGroup "Nonsense" 3 exGroup = rankGroup "Average of Last N" 3 exGroup ∧
    rankGroup "Nonsense" 3 exGroup = (50, "Avg of 3") := by
  have h1 : rankGroup "Nonsense" 3 exGroup =
      rankGroup "Average of Last N" 3 exGroup := by
    rw [rankGroup_avg_of_ne (m := "Nonsense") (by decide) (by decide),
      rankGroup_avg_of_ne (m := "Average of Last N") (by decide) (by decide)]
  refine ⟨h1, ?_⟩
  rw [rankGroup_avg_of_ne (m := "Nonsense") (by decide) (by decide)]
  have hs : sortDescByDate exGroup = [e3, e2, e1] := by decide
  rw [hs]
  have hmean : meanTime ([e3, e2, e1].take 3) = 50 := by
    norm_num [meanTime, e3, e2, e1]
  rw [hmean]
  have hr : round2 (50 : ℚ) = 50 := by
    norm_num [round2, roundHalfEven]
  rw [hr]
  rfl

/-- C9 amended: the dispatch recognizes only `"Best Time"` and
`"Last Swim"` explicitly; every other policy value, recognized or not,
is silently treated as Average of Last N, and the engine never fails. -/
theorem C9_amended_dispatch (m : String) (hm1 : m ≠ "Best Time")
    (hm2 : m ≠ "Last Swim") (n : Nat) (g : List Entry) :
    rankGroup m n g = rankGroup "Average of Last N" n g := by
  rw [rankGroup_avg_of_ne hm1 hm2, rankGroup_avg_of_ne (by decide) (by decide)]

/-- Witness for C9 amended at the policy string `"Bogus"`. -/
theorem C9_amended_dispatch_witness :
    ("Bogus" : String) ≠ "Best Time" ∧ ("Bogus" : String) ≠ "Last Swim" ∧
    rankGroup "Bogus" 2 exGroup = rankGroup "Average of Last N" 2 exGroup :=
  ⟨by decide, by decide, C9_amended_dispatch "Bogus" (by decide) (by decide) 2 exGroup⟩

theorem saveChanges_foldl (rows : List EditedRow) (store : Store) (c : Nat) :
    rows.foldl (fun acc row => ((acc.1 : Store).map (updateDoc row), acc.2 + 1))
      (store, c) =
      (store.map (fun p => rows.foldl (fun q row => updateDoc row q) p),
        c + rows.length) := by
  induction rows generalizing store c with
  | nil => simp
  | cons r rs ih =>
      simp only [List.foldl_cons]
      rw [ih (store.map (updateDoc r)) (c + 1), List.map_map]
      simp only [Function.comp, List.length_cons, Prod.mk.injEq]
      exact ⟨rfl, by omega⟩

theorem updateDoc_fst (row : EditedRow) (p : String × ResultDoc) :
    (updateDoc row p).1 = p.1 := by
  unfold updateDoc
  split <;> rfl

theorem updateDoc_untouched (row : EditedRow) (p : String × ResultDoc) :
    (updateDoc row p).2.swimmer_id = p.2.swimmer_id ∧
    (updateDoc row p).2.season = p.2.season ∧
    (updateDoc row p).2.source = p.2.source ∧
    (updateDoc row p).2.logged_by = p.2.logged_by ∧
    (updateDoc row p).2.timestamp = p.2.timestamp := by
  unfold updateDoc
  split <;> exact ⟨rfl, rfl, rfl, rfl, rfl⟩

theorem foldl_updateDoc_fst (rows : List EditedRow) (p : String × ResultDoc) :
    (rows.foldl (fun q row => updateDoc row q) p).1 = p.1 := by
  induction rows generalizing p with
  | nil => rfl
  | cons r rs ih =>
      simp only [List.foldl_cons]
      rw [ih (updateDoc r p), updateDoc_fst]

theorem foldl_updateDoc_untouched (rows : List EditedRow)
    (p : String × ResultDoc) :
    (rows.foldl (fun q row => updateDoc row q) p).2.swimmer_id = p.2.swimmer_id ∧
    (rows.foldl (fun q row => updateDoc row q) p).2.season = p.2.season ∧
    (rows.foldl (fun q row => updateDoc row q) p).2.source = p.2.source ∧
    (rows.foldl (fun q row => updateDoc row q) p).2.logged_by = p.2.logged_by ∧
    (rows.foldl (fun q row => updateDoc row q) p).2.timestamp = p.2.timestamp := by
  induction rows generalizing p with
  | nil => exact ⟨rfl, rfl, rfl, rfl, rfl⟩
  | cons r rs ih =>
      simp only [List.foldl_cons]
      obtain ⟨h1, h2, h3, h4, h5⟩ := ih (updateDoc r p)
      obtain ⟨g1, g2, g3, g4, g5⟩ := updateDoc_untouched r p
      exact ⟨h1.trans g1, h2.trans g2, h3.trans g3, h4.trans g4, h5.trans g5⟩

theorem foldl_updateDoc_of_ne (rows : List EditedRow) (p : String × ResultDoc)
    (h : ∀ row ∈ rows, row.doc_id ≠ p.1) :
    rows.foldl (fun q row => updateDoc row q) p = p := by
  induction rows with
  | nil => rfl
  | cons r rs ih =>
      simp only [List.foldl_cons]
      have hne : ¬ (p.1 = r.doc_id) := fun he =>
        h r (List.mem_cons_self r rs) he.symm
      have hupd : updateDoc r p = p := by
        simp only [updateDoc, if_neg hne]
      rw [hupd]
      exact ih (fun row hr => h row (List.mem_cons_of_mem _ hr))

theorem foldl_updateDoc_of_mem (rows : List EditedRow) (row : EditedRow) :
    ∀ p : String × ResultDoc, row ∈ rows →
      (rows.map (·.doc_id)).Nodup → p.1 = row.doc_id →
      rows.foldl (fun q r => updateDoc r q) p =
        (p.1, { p.2 with
                  time_seconds := row.time_seconds
                  date_swum := dateToStr row.date_swum
                  stroke := row.stroke }) := by
  induction rows with
  | nil => intro p hmem; cases hmem
  | cons r rs ih =>
      intro p hmem hnd hid
      have hhead : r.doc_id ∉ rs.map (·.doc_id) :=
        (List.nodup_cons.mp (by simpa using hnd)).1
      have hnd' : (rs.map (·.doc_id)).Nodup :=
        (List.nodup_cons.mp (by simpa using hnd)).2
      rcases List.mem_cons.mp hmem with he | ht
      · subst he
        simp only [List.foldl_cons]
        have hupd : updateDoc row p =
            (p.1, { p.2 with
                      time_seconds := row.time_seconds
                      date_swum := dateToStr row.date_swum
                      stroke := row.stroke }) := by
          simp only [updateDoc, if_pos hid]
        rw [hupd]
        apply foldl_updateDoc_of_ne
        intro r' hr' he'
        apply hhead
        have he2 : r'.doc_id = p.1 := he'
        have hm : r'.doc_id ∈ rs.map (·.doc_id) := List.mem_map_of_mem _ hr'
        rwa [he2, hid] at hm
      · have hne : ¬ (p.1 = r.doc_id) := by
          intro he
          apply hhead
          have hm : row.doc_id ∈ rs.map (·.doc_id) := List.mem_map_of_mem _ ht
          rwa [← hid, he] at hm
        simp only [List.foldl_cons]
        have hupd : updateDoc r p = p := by
          simp only [updateDoc, if_neg hne]
        rw [hupd]
        exact ih p ht hnd' hid

/-- C10: with pairwise-distinct `doc_id`s, the save loop overwrites for
every kept row exactly the three fields `time_seconds`, `date_swum`
(re-serialized via `dateToStr`) and `stroke` of the document with that
row's id; every stored document keeps its id, `swimmer_id`, `season`,
`source`, `logged_by` and creation `timestamp`; documents whose id is
not among the edited rows (other swimmers' Results) are unchanged; and
the loop returns the update count. -/
theorem C10_reconcile_frame_spec (store : Store) (rows : List EditedRow)
    (hnd : (rows.map (·.doc_id)).Nodup) :
    (∀ id doc, (id, doc) ∈ store → ∀ row ∈ rows, row.doc_id = id →
       (id, { doc with
                time_seconds := row.time_seconds
                date_swum := dateToStr row.date_swum
                stroke := row.stroke }) ∈
         (saveChangesToHistory store rows).1) ∧
    (∀ id doc, (id, doc) ∈ store → (∀ row ∈ rows, row.doc_id ≠ id) →
       (id, doc) ∈ (saveChangesToHistory store rows).1) ∧
    (∀ q ∈ (saveChangesToHistory store rows).1, ∃ p ∈ store,
       q.1 = p.1 ∧ q.2.swimmer_id = p.2.swimmer_id ∧
       q.2.season = p.2.season ∧ q.2.source = p.2.source ∧
       q.2.logged_by = p.2.logged_by ∧ q.2.timestamp = p.2.timestamp) ∧
    (saveChangesToHistory store rows).1.map Prod.fst = store.map Prod.fst ∧
    (saveChangesToHistory store rows).2 = rows.length := by
  have hsave : saveChangesToHistory store rows =
      (store.map (fun p => rows.foldl (fun q row => updateDoc row q) p),
        rows.length) := by
    simpa using saveChanges_foldl rows store 0
  refine ⟨?_, ?_, ?_, ?_, ?_⟩
  · intro id doc hmem row hrow hid
    rw [hsave]
    exact List.mem_map.mpr ⟨(id, doc), hmem,
      foldl_updateDoc_of_mem rows row (id, doc) hrow hnd hid.symm⟩
  · intro id doc hmem hnone
    rw [hsave]
    exact List.mem_map.mpr ⟨(id, doc), hmem,
      foldl_updateDoc_of_ne rows (id, doc) (fun row hr => hnone row hr)⟩
  · intro q hq
    rw [hsave] at hq
    rcases List.mem_map.mp hq with ⟨p, hp, rfl⟩
    obtain ⟨h1, h2, h3, h4, h5⟩ := foldl_updateDoc_untouched rows p
    exact ⟨p, hp, foldl_updateDoc_fst rows p, h1, h2, h3, h4, h5⟩
  · rw [hsave]
    simp only [List.map_map]
    exact List.map_congr_left (fun p _ => foldl_updateDoc_fst rows p)
  · rw [hsave]

/-- Witness for C10: saving the snapshot `[exRowKeep]` over `exStore`
rewrites `r1`'s three editable fields and leaves `r2` untouched. -/
theorem C10_reconcile_frame_spec_witness :
    ([exRowKeep].map (·.doc_id)).Nodup ∧
    ("r1", exDoc1) ∈ exStore ∧ exRowKeep ∈ [exRowKeep] ∧
    exRowKeep.doc_id = "r1" ∧
    ("r1", { exDoc1 with
               time_seconds := exRowKeep.time_seconds
               date_swum := dateToStr exRowKeep.date_swum
               stroke := exRowKeep.stroke }) ∈
      (saveChangesToHistory exStore [exRowKeep]).1 ∧
    (∀ row ∈ [exRowKeep], row.doc_id ≠ "r2") ∧
    ("r2", exDoc2) ∈ (saveChangesToHistory exStore [exRowKeep]).1 :=
  ⟨by decide, by decide, by decide, rfl,
    (C10_reconcile_frame_spec exStore [exRowKeep] (by decide)).1 "r1" exDoc1
      (by decide) exRowKeep (by decide) rfl,
    by decide,
    (C10_reconcile_frame_spec exStore [exRowKeep] (by decide)).2.1 "r2" exDoc2
      (by decide) (by decide)⟩

end Pelham
